import Mathlib

/-!
Verification development for the simulation and optimization engine in
`algame/core/engine/custom.py` (classes `Position`, `AssetProcessor`,
`CustomEngine`) against its natural-language specification.

Modelling conventions:
* Python floats are idealized as rationals (`ℚ`); timestamps as naturals.
* A Python attribute that is only assigned later (`Position.unrealized_pnl`,
  set in `Position.update` but never in `Position.__init__`) is an
  `Option ℚ` initialized to `none`; reading it while `none` is the
  `AttributeError` the interpreter would raise.
* Python exceptions are explicit: functions that can raise return
  `Except PyErr _` or a `_ × Option PyErr` pair (the first component is the
  object state at the moment the exception propagates — attribute mutations
  made before the raise persist, exactly as in CPython).
* Python truthiness tests on an optional float (`if self.stop_loss:`) are
  `truthy`, which is false for `None` and for `0.0`.
-/

/-- `PyErr`: the concrete exceptions the embedded code can raise. -/
inductive PyErr where
  /-- reading `Position.unrealized_pnl` before `Position.update` assigned it -/
  | attributeError
  /-- `pd.Series(values, index=...)` with `len(values) ≠ len(index)` -/
  | lengthMismatch (values index : ℕ)
  /-- `params[name]` lookup with a name absent from the parameter dict -/
  | keyError
  /-- `max(results)` on an empty `results` list -/
  | valueErrorEmptyMax
  /-- `_generate_param_combos` with an unsupported `method` string -/
  | valueErrorMethod
deriving DecidableEq, Repr

/-- Engine configuration (`EngineConfig` in `interface.py`); only the two
fields the simulation in `custom.py` actually reads are modelled. -/
structure EngineConfig where
  initial_capital : ℚ
  commission : ℚ
deriving DecidableEq, Repr

/-- One OHLCV bar; `opn` models the `Open` column (`open` is a Lean keyword).
`time` is the row label (`current_bar.name` / `data.index` entry). -/
structure Bar where
  time : ℕ
  opn : ℚ
  high : ℚ
  low : ℚ
  close : ℚ
  volume : ℕ
deriving DecidableEq, Repr

/-- `Position` from `custom.py`: signed size (positive long, negative short),
entry price/time, optional stop-loss / take-profit levels.
`unrealized_pnl` is NOT set by `__init__`; it is first assigned by
`Position.update`, hence the `Option` with default `none`. -/
structure Position where
  size : ℚ
  entry_price : ℚ
  entry_time : ℕ
  stop_loss : Option ℚ := none
  take_profit : Option ℚ := none
  unrealized_pnl : Option ℚ := none
deriving DecidableEq, Repr

/-- `Position.update`: `self.unrealized_pnl = (current_price - self.entry_price) * self.size`. -/
def Position.update (p : Position) (current_price : ℚ) : Position :=
  { p with unrealized_pnl := some ((current_price - p.entry_price) * p.size) }

/-- Python truthiness of an optional float: `None` and `0.0` are falsy. -/
def truthy (o : Option ℚ) : Bool :=
  match o with
  | none => false
  | some x => x != 0

/-- `Position.should_exit`, line for line.  The `if ... elif ...` chains of the
source are the nested `if`s here; each guard starts with the truthiness test
`self.stop_loss and ...` / `self.take_profit and ...`, so a level equal to
`0.0` never triggers. -/
def Position.shouldExit (p : Position) (current_price : ℚ) : Bool :=
  let slHit : Bool :=
    if truthy p.stop_loss && decide (0 < p.size) then
      decide (current_price ≤ p.stop_loss.getD 0)
    else if truthy p.stop_loss && decide (p.size < 0) then
      decide (p.stop_loss.getD 0 ≤ current_price)
    else false
  let tpHit : Bool :=
    if truthy p.take_profit && decide (0 < p.size) then
      decide (p.take_profit.getD 0 ≤ current_price)
    else if truthy p.take_profit && decide (p.size < 0) then
      decide (current_price ≤ p.take_profit.getD 0)
    else false
  slHit || tpHit

/-- A strategy signal dict.  `size` defaults to `1.0` and `close_existing` to
`True`, mirroring `signal.get('size', 1.0)` / `signal.get('close_existing', True)`.
An unrecognized `action` value is `other` (the source then does nothing). -/
inductive SignalAction where
  | buy
  | sell
  | close
  | other
deriving DecidableEq, Repr

/-- A signal as consumed by `AssetProcessor._process_signals`. -/
structure Signal where
  action : SignalAction
  size : ℚ := 1
  close_existing : Bool := true
  stop_loss : Option ℚ := none
  take_profit : Option ℚ := none
deriving DecidableEq, Repr

/-- `TradeStats` (`interface.py`), restricted to the fields `custom.py` fills. -/
structure TradeStats where
  entry_time : ℕ
  exit_time : ℕ
  entry_price : ℚ
  exit_price : ℚ
  size : ℚ
  pnl : ℚ
  return_pct : ℚ
  fees : ℚ
deriving DecidableEq, Repr

/-- The mutable per-asset state of one `AssetProcessor`: `self.position`,
`self.equity` (a Python list, newest value last) and `self.trades`. -/
structure ProcState where
  position : Option Position
  equity : List ℚ
  trades : List TradeStats
deriving DecidableEq, Repr

/-- A strategy object, reduced to its `next(bars-so-far)` method.  `none`
models `next` raising an exception (caught and logged by the processor);
`some signals` is a normal return.  An empty returned list is falsy in
`if signals:`, and `_process_signals` over `[]` is a no-op, so both paths
coincide. -/
abbrev Strategy := List Bar → Option (List Signal)

/-- `AssetProcessor._calculate_fees`: `abs(price * size * self.config.commission)`. -/
def calcFees (cfg : EngineConfig) (price size : ℚ) : ℚ :=
  |price * size * cfg.commission|

/-- `AssetProcessor._close_position`: if a position is open, append one
`TradeStats` record and clear the position; otherwise do nothing. -/
def closePosition (cfg : EngineConfig) (st : ProcState) (price : ℚ) (time : ℕ) : ProcState :=
  match st.position with
  | none => st
  | some p =>
      { st with
        trades := st.trades ++
          [{ entry_time := p.entry_time
             exit_time := time
             entry_price := p.entry_price
             exit_price := price
             size := p.size
             pnl := (price - p.entry_price) * p.size
             return_pct := (price / p.entry_price - 1) * 100
             fees := calcFees cfg price p.size }]
        position := none }

/-- `AssetProcessor._open_long`: overwrite `self.position` with a fresh
`Position` (whose `unrealized_pnl` is unassigned). -/
def openLong (st : ProcState) (size price : ℚ) (time : ℕ) (sl tp : Option ℚ) : ProcState :=
  { st with
    position := some
      { size := size, entry_price := price, entry_time := time
        stop_loss := sl, take_profit := tp, unrealized_pnl := none } }

/-- `AssetProcessor._open_short`: as `_open_long` with negated size. -/
def openShort (st : ProcState) (size price : ℚ) (time : ℕ) (sl tp : Option ℚ) : ProcState :=
  { st with
    position := some
      { size := -size, entry_price := price, entry_time := time
        stop_loss := sl, take_profit := tp, unrealized_pnl := none } }

/-- One iteration of the loop body of `AssetProcessor._process_signals`. -/
def processSignal (cfg : EngineConfig) (close : ℚ) (time : ℕ)
    (st : ProcState) (s : Signal) : ProcState :=
  match s.action with
  | .buy =>
      let st1 := if st.position.isSome && s.close_existing
                 then closePosition cfg st close time else st
      openLong st1 s.size close time s.stop_loss s.take_profit
  | .sell =>
      let st1 := if st.position.isSome && s.close_existing
                 then closePosition cfg st close time else st
      openShort st1 s.size close time s.stop_loss s.take_profit
  | .close =>
      if st.position.isSome then closePosition cfg st close time else st
  | .other => st

/-- `AssetProcessor._process_signals`: fold the loop body over the list. -/
def processSignals (cfg : EngineConfig) (signals : List Signal) (close : ℚ)
    (time : ℕ) (st : ProcState) : ProcState :=
  signals.foldl (processSignal cfg close time) st

/-- `AssetProcessor._calculate_equity`: `self.equity[-1]` plus, when a position
is open, its `unrealized_pnl` attribute — an `AttributeError` if that attribute
was never assigned (position opened on this very bar).  The Python parameter
`current_price` is unused by the source body and therefore omitted. -/
def calcEquity (st : ProcState) : Except PyErr ℚ :=
  let e := st.equity.getLastD 0
  match st.position with
  | none => .ok e
  | some p =>
      match p.unrealized_pnl with
      | some u => .ok (e + u)
      | none => .error .attributeError

/-- First phase of `AssetProcessor._process_bar`: if a position exists, call
`update(close)` and, if `should_exit(close)`, `_close_position` at the close. -/
def exitStep (cfg : EngineConfig) (st : ProcState) (close : ℚ) (time : ℕ) : ProcState :=
  match st.position with
  | none => st
  | some p =>
      let p1 := p.update close
      let st1 := { st with position := some p1 }
      if p1.shouldExit close then closePosition cfg st1 close time else st1

/-- Second phase of `_process_bar`: call the strategy on the bars seen so far
and process the returned signals; an exception from the strategy (or a falsy
empty signal list) leaves the state unchanged. -/
def signalStep (cfg : EngineConfig) (strat : Strategy) (hist : List Bar)
    (close : ℚ) (time : ℕ) (st : ProcState) : ProcState :=
  match strat hist with
  | none => st
  | some signals => processSignals cfg signals close time st

/-- Third phase of `_process_bar`: `self.equity.append(self._calculate_equity(...))`.
When `_calculate_equity` raises, the append does not happen and the
exception propagates with the state so far. -/
def equityStep (st : ProcState) : ProcState × Option PyErr :=
  match calcEquity st with
  | .ok e => ({ st with equity := st.equity ++ [e] }, none)
  | .error err => (st, some err)

/-- `AssetProcessor._process_bar`, phases in source order: stop/target exits
first, then strategy signals, then the equity append. -/
def processBar (cfg : EngineConfig) (strat : Strategy) (hist : List Bar)
    (b : Bar) (st : ProcState) : ProcState × Option PyErr :=
  equityStep (signalStep cfg strat hist b.close b.time (exitStep cfg st b.close b.time))

/-- The bar loop of `AssetProcessor.run`: process the remaining bars in order,
keeping the history prefix (`self.data.iloc[:index+1]`) explicit; stop at the
first propagating exception, returning the state at that moment. -/
def runFrom (cfg : EngineConfig) (strat : Strategy) :
    List Bar → List Bar → ProcState → ProcState × Option PyErr
  | _, [], st => (st, none)
  | processed, b :: rest, st =>
      match processBar cfg strat (processed ++ [b]) b st with
      | (st1, some e) => (st1, some e)
      | (st1, none) => runFrom cfg strat (processed ++ [b]) rest st1

/-- `AssetProcessor.__init__` tracking state: no position, equity list seeded
with `config.initial_capital`, no trades. -/
def initState (cfg : EngineConfig) : ProcState :=
  { position := none, equity := [cfg.initial_capital], trades := [] }

/-- The per-asset result `AssetProcessor.run` would return: the equity series
(`pd.Series(self.equity, index=self.data.index)`) and the trade list. -/
structure RunResult where
  equity : List (ℕ × ℚ)
  trades : List TradeStats
deriving DecidableEq, Repr

/-- `AssetProcessor.run`: process every bar; then force-close any open
position at the last bar's close; then build the equity series.
`pd.Series(values, index)` raises unless the lengths agree, which is the
final length check here.  (The `bars = []` arm of the force-close is
unreachable with an open position, since the initial position is `none`.) -/
def runAsset (cfg : EngineConfig) (strat : Strategy) (bars : List Bar) :
    Except PyErr RunResult :=
  match runFrom cfg strat [] bars (initState cfg) with
  | (_, some e) => .error e
  | (st, none) =>
      let stC :=
        if st.position.isSome then
          match bars.getLast? with
          | some lb => closePosition cfg st lb.close lb.time
          | none => st
        else st
      if stC.equity.length = bars.length then
        .ok { equity := (bars.map Bar.time).zip stC.equity, trades := stC.trades }
      else
        .error (.lengthMismatch stC.equity.length bars.length)

/-! ## `CustomEngine._combine_results` (equity fan-in) -/

/-- Value of one equity series at timestamp `t`, if present. -/
def lookupVal (t : ℕ) (r : List (ℕ × ℚ)) : Option ℚ :=
  (r.find? (fun e => e.1 == t)).map (fun e => e.2)

/-- The outer-join index: the union of all timestamps, deduplicated.
(`pd.concat(axis=1)` additionally sorts this union; the claims below only
concern the value the combined curve holds at each timestamp, which does not
depend on the index order, so the sort is omitted.) -/
def joinTimes (rs : List (List (ℕ × ℚ))) : List ℕ :=
  (rs.flatMap (fun r => r.map Prod.fst)).dedup

/-- Equity fan-in of `CustomEngine._combine_results`:
`pd.concat([...], axis=1)` outer-joins the per-asset series (missing entries
become NaN) and `.sum(axis=1)` adds each row with `skipna=True`, so a series
with no value at `t` contributes `0` to the total at `t`. -/
def combineEquity (rs : List (List (ℕ × ℚ))) : List (ℕ × ℚ) :=
  (joinTimes rs).map (fun t => (t, (rs.map (fun r => (lookupVal t r).getD 0)).sum))

/-- Modelled from the spec: "equity curves are outer-joined on timestamp and
summed (missing values in a shorter series are treated as that asset's
starting capital carried forward, never as zero)" — a series missing `t`
contributes its starting capital (its first equity value). -/
def specCombineEquity (rs : List (List (ℕ × ℚ))) : List (ℕ × ℚ) :=
  (joinTimes rs).map (fun t =>
    (t, (rs.map (fun r => (lookupVal t r).getD (((r.head?).map Prod.snd).getD 0))).sum))

/-! ## Parameter-space generation (`CustomEngine._generate_param_combos`) -/

/-- A constraint operand: literal or parameter name. -/
inductive PExpr where
  | lit (x : ℚ)
  | pname (s : String)
deriving DecidableEq, Repr

/-- Comparison operator of a constraint. -/
inductive CmpOp where
  | lt
  | le
  | gt
  | ge
  | eq
deriving DecidableEq, Repr

/-- A constraint `left OP right` as consumed by `_check_constraint`. -/
structure Constraint where
  op : CmpOp
  left : PExpr
  right : PExpr
deriving DecidableEq, Repr

/-- A parameter set: a Python dict modelled as an insertion-ordered
association list. -/
abbrev Params := List (String × ℚ)

/-- `CustomEngine._evaluate_expression`: literal, or `params[name]`
(`none` = `KeyError`). -/
def evalExpr (e : PExpr) (ps : Params) : Option ℚ :=
  match e with
  | .lit x => some x
  | .pname s => (ps.find? (fun kv => kv.1 == s)).map (fun kv => kv.2)

/-- The comparison dispatch of `_check_constraint`. -/
def cmpOp : CmpOp → ℚ → ℚ → Bool
  | .lt, l, r => decide (l < r)
  | .le, l, r => decide (l ≤ r)
  | .gt, l, r => decide (r < l)
  | .ge, l, r => decide (r ≤ l)
  | .eq, l, r => l == r

/-- `CustomEngine._check_constraint`; `none` models the `KeyError` from an
operand naming an absent parameter. -/
def checkConstraint (c : Constraint) (ps : Params) : Option Bool :=
  match evalExpr c.left ps, evalExpr c.right ps with
  | some l, some r => some (cmpOp c.op l r)
  | _, _ => none

/-- `all(self._check_constraint(params, c) for c in constraints)`, with
Python's short-circuit: a later `KeyError` is not raised once a constraint
evaluated to `False`. -/
def checkAll : List Constraint → Params → Option Bool
  | [], _ => some true
  | c :: rest, ps =>
      match checkConstraint c ps with
      | none => none
      | some false => some false
      | some true => checkAll rest ps

/-- `itertools.product(*values)` on a list of value lists, in source order
(rightmost dimension varies fastest). -/
def cartProd : List (List ℚ) → List (List ℚ)
  | [] => [[]]
  | vs :: rest => vs.flatMap (fun v => (cartProd rest).map (fun c => v :: c))

/-- The grid-mode constraint filter: keep the combinations whose zipped dict
satisfies every constraint; `none` models a propagating `KeyError`. -/
def filterCombos (cs : List Constraint) (keys : List String) :
    List (List ℚ) → Option (List (List ℚ))
  | [] => some []
  | combo :: rest =>
      match checkAll cs (keys.zip combo) with
      | none => none
      | some b => (filterCombos cs keys rest).map (fun r => if b then combo :: r else r)

/-- `random.sample(pool, k)`: a uniform sample without replacement, modelled
as selection sampling driven by the abstract stream `rng` of the (global,
never seeded) Mersenne Twister: step `i` removes the element at index
`rng i mod remaining-size`.  Only the stream-driven, without-replacement
shape matters for the theorems below. -/
def sampleK (rng : ℕ → ℕ) : ℕ → List (List ℚ) → ℕ → List (List ℚ)
  | _, _, 0 => []
  | _, [], _ + 1 => []
  | step, c :: rest, k + 1 =>
      let pool := c :: rest
      let j := rng step % pool.length
      pool.getD j c :: sampleK rng (step + 1) (pool.eraseIdx j) k

/-- `max_evals or 100`: Python `or` replaces both `None` and `0` by 100. -/
def pyNeeded : Option ℕ → ℕ
  | none => 100
  | some 0 => 100
  | some (k + 1) => k + 1

/-- Truthiness of `max_evals` in `if max_evals and ...`. -/
def pyTruthyNat : Option ℕ → Bool
  | none => false
  | some k => k != 0

/-- One random-mode draw (`{key: random.choice(values) ...}`): dimension `i`
of the dict consumes stream element `step + i` to index its value list.  (An
empty value list would raise in Python; it is not exercised here.) -/
def drawCombo (space : List (String × List ℚ)) (rng : ℕ → ℕ) (step : ℕ) : Params :=
  (space.enum).map (fun ikv => (ikv.2.1, ikv.2.2.getD (rng (step + ikv.1) % ikv.2.2.length) 0))

/-- The random-mode `while len(combinations) < (max_evals or 100)` loop,
made total with explicit fuel: `none` means the loop is still running after
`fuel` iterations (the source has no other way out of the loop). -/
def randomLoop (space : List (String × List ℚ)) (cs : List Constraint)
    (needed : ℕ) (rng : ℕ → ℕ) :
    ℕ → ℕ → List Params → Option (Except PyErr (List Params))
  | 0, _, acc => if acc.length < needed then none else some (.ok acc)
  | fuel + 1, step, acc =>
      if acc.length < needed then
        match checkAll cs (drawCombo space rng step) with
        | none => some (.error .keyError)
        | some true =>
            randomLoop space cs needed rng fuel (step + space.length)
              (acc ++ [drawCombo space rng step])
        | some false =>
            randomLoop space cs needed rng fuel (step + space.length) acc
      else some (.ok acc)

/-- `CustomEngine._generate_param_combos`.  The outer `Option` is
non-termination of the random-mode loop within `fuel` iterations; the
`Except` carries the exceptions the source can raise.  `rng` is the hidden
global random state (never seeded by the engine). -/
def generateParamCombos (space : List (String × List ℚ)) (method : String)
    (max_evals : Option ℕ) (constraints : List Constraint) (rng : ℕ → ℕ)
    (fuel : ℕ) : Option (Except PyErr (List Params)) :=
  if method == "grid" then
    let keys := space.map Prod.fst
    let combos := cartProd (space.map Prod.snd)
    match filterCombos constraints keys combos with
    | none => some (.error .keyError)
    | some combos1 =>
        let combos2 :=
          if pyTruthyNat max_evals && decide (max_evals.getD 0 < combos1.length)
          then sampleK rng 0 combos1 (max_evals.getD 0)
          else combos1
        some (.ok (combos2.map (fun c => keys.zip c)))
  else if method == "random" then
    randomLoop space constraints (pyNeeded max_evals) rng fuel 0 []
  else some (.error .valueErrorMethod)

/-- Modelled from the spec: "independently draw `max_evaluations` samples ...
After generation, every candidate set is filtered through all constraints" —
draw exactly `needed` samples from the same stream, then filter them.
`none` models a `KeyError` while filtering. -/
def specRandomCombos (space : List (String × List ℚ)) (cs : List Constraint)
    (needed : ℕ) (rng : ℕ → ℕ) : Option (List Params) :=
  ((List.range needed).map (fun i => drawCombo space rng (i * space.length))).foldr
    (fun c acc =>
      match acc, checkAll cs c with
      | some r, some true => some (c :: r)
      | some r, some false => some r
      | _, _ => none)
    (some [])

/-! ## Optimization (`CustomEngine.optimize_strategy`) and parameter importance -/

/-- The per-parameter-set evaluation `self.run_backtest(...)` followed by
`result.metrics[metric]`: abstracted as a function from the parameter set to
the target-metric value, `Except.error` when the backtest raised. -/
abbrev Evaluator := Params → Except Unit ℚ

/-- The result-collection loop of `optimize_strategy`: a raising evaluation is
logged and skipped — it contributes NO row to `results`. -/
def collectResults (f : Evaluator) (combos : List Params) : List (Params × ℚ) :=
  combos.filterMap (fun p =>
    match f p with
    | .ok v => some (p, v)
    | .error _ => none)

/-- `max(results, key=lambda x: x['value'])`: the FIRST row attaining the
maximal value (Python `max` keeps the earliest of tied candidates); `none`
is the `ValueError` of `max` on an empty sequence. -/
def pyMax : List (Params × ℚ) → Option (Params × ℚ)
  | [] => none
  | x :: rest => some (rest.foldl (fun b y => if y.2 > b.2 then y else b) x)

/-- Exact rational square root used to model float `sqrt` inside the Pearson
correlation: the exact root on perfect rational squares, `0` elsewhere
(every value the theorems below evaluate it on is a perfect square). -/
def ratSqrt (q : ℚ) : ℚ :=
  let n := q.num.toNat
  let d := q.den
  if Nat.sqrt n * Nat.sqrt n == n && Nat.sqrt d * Nat.sqrt d == d then
    (Nat.sqrt n : ℚ) / (Nat.sqrt d : ℚ)
  else 0

/-- `pandas.Series.corr` (Pearson): NaN (`none`) when either column has zero
variance — constant column, or fewer than two rows; otherwise
`Σ dx dy / sqrt(Σ dx² · Σ dy²)` (the `1/(n-1)` factors cancel). -/
def corrOpt (xs ys : List ℚ) : Option ℚ :=
  let n : ℚ := xs.length
  let mx := xs.sum / n
  let my := ys.sum / n
  let dx := xs.map (fun x => x - mx)
  let dy := ys.map (fun y => y - my)
  let sxx := (dx.map (fun a => a * a)).sum
  let syy := (dy.map (fun a => a * a)).sum
  if sxx = 0 ∨ syy = 0 then none
  else some (((dx.zip dy).map (fun ab => ab.1 * ab.2)).sum / ratSqrt (sxx * syy))

/-- `df[param]` for one results row: the row's value under a parameter name
(all rows share the same keys, so the default is never reached). -/
def lookupQ (k : String) (ps : Params) : ℚ :=
  ((ps.find? (fun kv => kv.1 == k)).map (fun kv => kv.2)).getD 0

/-- NaN-propagating `sum` over the importance values: one NaN (`none`) makes
the whole total NaN, exactly as float addition does. -/
def sumOpt : List (Option ℚ) → Option ℚ
  | [] => some 0
  | none :: _ => none
  | some a :: rest =>
      match sumOpt rest with
      | some b => some (a + b)
      | none => none

/-- First half of `CustomEngine._calculate_param_importance`: for each
parameter column (keys of the first row, in insertion order) the absolute
Pearson correlation between that column and the `value` column;
`abs(NaN) = NaN` is `Option.map abs` of a `none`. -/
def rawImportance (results : List (Params × ℚ)) : List (String × Option ℚ) :=
  match results with
  | [] => []
  | (p0, _) :: _ =>
      p0.map (fun kv =>
        (kv.1, (corrOpt (results.map (fun r => lookupQ kv.1 r.1))
                        (results.map (fun r => r.2))).map (fun c => |c|)))

/-- `CustomEngine._calculate_param_importance`: normalize the raw importances
to percentages only when `total > 0` — which is falsy both for a zero total
and for a NaN total (any undefined correlation). -/
def paramImportance (results : List (Params × ℚ)) : List (String × Option ℚ) :=
  match sumOpt ((rawImportance results).map (fun e => e.2)) with
  | some t =>
      if 0 < t then
        (rawImportance results).map (fun e => (e.1, e.2.map (fun v => v / t * 100)))
      else rawImportance results
  | none => rawImportance results

/-- `OptimizationResult`, restricted to the fields `optimize_strategy` fills
from the embedded computation (`best_metrics`/`optimization_path` carry no
information beyond these). -/
structure OptResult where
  best_params : Params
  best_value : ℚ
  all_results : List (Params × ℚ)
  param_importance : List (String × Option ℚ)
deriving DecidableEq, Repr

/-- `CustomEngine.optimize_strategy` after the parallel evaluations are in:
collect the successful rows, pick the best by `max`, compute importances. -/
def optimizeStrategy (f : Evaluator) (combos : List Params) : Except PyErr OptResult :=
  match pyMax (collectResults f combos) with
  | none => .error .valueErrorEmptyMax
  | some best =>
      .ok { best_params := best.1
            best_value := best.2
            all_results := collectResults f combos
            param_importance := paramImportance (collectResults f combos) }

/-- Modelled from the spec: "failed optimization evaluations are reported in
the results table with an error marker rather than omitted silently" — the
all-results table records EVERY attempted parameter set, errors marked. -/
def specAllResults (f : Evaluator) (combos : List Params) :
    List (Params × Except Unit ℚ) :=
  combos.map (fun p => (p, f p))

/-- Modelled from the spec: "recompute current equity as realized capital +
unrealized P&L of open position" — initial capital, plus realized P&L net of
fees over all trades closed so far, plus the open position's unrealized P&L
at the current price. -/
def specEquity (cfg : EngineConfig) (st : ProcState) (price : ℚ) : ℚ :=
  cfg.initial_capital + (st.trades.map (fun t => t.pnl - t.fees)).sum +
    (match st.position with
     | some p => (price - p.entry_price) * p.size
     | none => 0)

/-! ## Concrete fixtures used by the theorems below -/

/-- Extract the exception of a per-asset run, if any. -/
def runError : Except PyErr RunResult → Option PyErr
  | .error e => some e
  | .ok _ => none

/-- Constant-price bar (only `close` and `time` feed the simulation). -/
def mkBar (t : ℕ) (c : ℚ) : Bar :=
  { time := t, opn := c, high := c, low := c, close := c, volume := 0 }

/-- Config with capital 10000 and zero commission. -/
def cfg0 : EngineConfig := { initial_capital := 10000, commission := 0 }

/-- Config with capital 10000 and 1% commission. -/
def cfgFee : EngineConfig := { initial_capital := 10000, commission := 1/100 }

/-- Strategy that buys one unit on the first bar and never signals again. -/
def buyStrat : Strategy :=
  fun hist => if hist.length == 1 then some [{ action := .buy }] else some []

/-- Strategy that never signals. -/
def noSigStrat : Strategy := fun _ => some []

/-- Strategy that opens and closes a one-unit long on every bar. -/
def buyCloseStrat : Strategy :=
  fun _ => some [{ action := .buy }, { action := .close }]

/-- Long position whose stop-loss level is the float `0.0`. -/
def posSL0 : Position := { size := 1, entry_price := 100, entry_time := 0, stop_loss := some 0 }

/-- State holding `posSL0` before the bar. -/
def stSL0 : ProcState := { position := some posSL0, equity := [10000], trades := [] }

/-- Long one unit from 100 with stop-loss 99 (the spec's scenario). -/
def posSL99 : Position := { size := 1, entry_price := 100, entry_time := 0, stop_loss := some 99 }

/-- State holding `posSL99` before the bar. -/
def stSL99 : ProcState := { position := some posSL99, equity := [10000], trades := [] }

/-- Two per-asset equity curves of different lengths: asset 1 has equity 100
then 110 at times 0 and 1; asset 2 stops at time 0 with equity 50. -/
def rs0 : List (List (ℕ × ℚ)) := [[(0, 100), (1, 110)], [(0, 50)]]

/-- An open short of one unit from 100. -/
def shortPos : Position := { size := -1, entry_price := 100, entry_time := 0 }

/-- State holding the open short. -/
def stShort : ProcState := { position := some shortPos, equity := [10000], trades := [] }

/-- Buy signal with `close_existing=False`. -/
def sigBuyKeep : Signal := { action := .buy, close_existing := false }

/-- Buy signal with the default `close_existing=True`. -/
def sigBuy : Signal := { action := .buy }

/-- Project a successful generator outcome. -/
def genOk : Option (Except PyErr (List Params)) → Option (List Params)
  | some (.ok l) => some l
  | some (.error _) => none
  | none => none

/-- Decidable equality of `Except` outcomes (not derived by core). -/
instance {ε α : Type} [DecidableEq ε] [DecidableEq α] : DecidableEq (Except ε α) := fun a b =>
  match a, b with
  | .error e1, .error e2 =>
      if h : e1 = e2 then isTrue (by rw [h]) else isFalse (fun hc => h (Except.error.inj hc))
  | .error _, .ok _ => isFalse (fun hc => Except.noConfusion hc)
  | .ok _, .error _ => isFalse (fun hc => Except.noConfusion hc)
  | .ok a1, .ok a2 =>
      if h : a1 = a2 then isTrue (by rw [h]) else isFalse (fun hc => h (Except.ok.inj hc))

/-- The unsatisfiable constraint `p < p`. -/
def cLtSelf : Constraint := { op := .lt, left := .pname "p", right := .pname "p" }

/-- The constraint `p == 1`. -/
def cEq1 : Constraint := { op := .eq, left := .pname "p", right := .lit 1 }

/-- A parameter set whose evaluation raises. -/
def pBad : Params := [("p", 1)]

/-- A parameter set whose evaluation succeeds. -/
def pGood : Params := [("p", 2)]

/-- Evaluator raising on `pBad` (the strategy/backtest exception) and
returning metric value 1 otherwise. -/
def fEval : Evaluator := fun p => if p = pBad then .error () else .ok 1

/-- Two successful runs over parameter values 1 and 3 with metric values 1
and 2: the (perfectly linear) correlation is exactly 1. -/
def resW : List (Params × ℚ) := [([("p", 1)], 1), ([("p", 3)], 2)]

/-- Two successful runs with a CONSTANT parameter column. -/
def resConst : List (Params × ℚ) := [([("p", 5)], 1), ([("p", 5)], 2)]

/-! ## Theorems -/

/-- C1: refuted as stated — the code contradicts the spec's force-close
postcondition.  On a 1-bar series whose strategy buys on bar 0,
`_calculate_equity` reads `Position.unrealized_pnl`, which is never assigned
for a position opened on that same bar, so `run` aborts with `AttributeError`:
the run ends with the position still open (`size = 1`, not `0`) and no
`Trade` emitted; the force-close at the last close is never reached. -/
theorem c1_run_aborts_with_open_position :
    runError (runAsset cfg0 buyStrat [mkBar 0 100]) = some .attributeError ∧
    (runFrom cfg0 buyStrat [] [mkBar 0 100] (initState cfg0)).1.position =
      some { size := 1, entry_price := 100, entry_time := 0 } ∧
    (runFrom cfg0 buyStrat [] [mkBar 0 100] (initState cfg0)).1.trades = [] := by
  refine ⟨?_, ?_, ?_⟩ <;>
    norm_num [runError, runAsset, runFrom, processBar, equityStep, signalStep, exitStep,
      processSignals, processSignal, closePosition, openLong, openShort, calcEquity, calcFees,
      Position.update, Position.shouldExit, truthy, initState, mkBar, cfg0, buyStrat]

/-! ## C2 -/

/-- C2, counterexample: a bar whose close touches the stop-loss need not close
the position.  With a long position whose stop-loss is `0.0` and a bar closing
at `0` (close ≤ stop, a touch), `should_exit` begins with the truthiness test
`if self.stop_loss and ...`, which is false for `0.0`, so the bar leaves the
position open and emits no trade. -/
theorem c2_zero_stop_loss_not_triggered :
    posSL0.stop_loss = some 0 ∧ 0 < posSL0.size ∧
    (0 : ℚ) ≤ posSL0.stop_loss.getD 0 ∧
    (processBar cfg0 noSigStrat [mkBar 1 0] (mkBar 1 0) stSL0).1.position =
      some (posSL0.update 0) ∧
    (processBar cfg0 noSigStrat [mkBar 1 0] (mkBar 1 0) stSL0).1.trades = [] := by
  refine ⟨rfl, by norm_num [posSL0], by norm_num [posSL0], ?_, ?_⟩ <;>
    norm_num [processBar, equityStep, signalStep, exitStep, processSignals, processSignal,
      closePosition, openLong, openShort, calcEquity, calcFees, Position.update,
      Position.shouldExit, truthy, mkBar, cfg0, noSigStrat, stSL0, posSL0]

/-- C2, amended: on every bar, a position whose (truthy, i.e. nonzero)
stop-loss or take-profit triggers against that bar's close is closed at that
close price — the closing trade is appended and the position cleared — and
only then is the strategy invoked and any signal of the bar applied: the
whole bar equals the signal and equity phases run from the closed state. -/
theorem c2_exit_precedes_signals (cfg : EngineConfig) (strat : Strategy)
    (hist : List Bar) (b : Bar) (st : ProcState) (p : Position)
    (hp : st.position = some p)
    (hx : (p.update b.close).shouldExit b.close = true) :
    exitStep cfg st b.close b.time =
      { st with
        position := none
        trades := st.trades ++
          [{ entry_time := p.entry_time
             exit_time := b.time
             entry_price := p.entry_price
             exit_price := b.close
             size := p.size
             pnl := (b.close - p.entry_price) * p.size
             return_pct := (b.close / p.entry_price - 1) * 100
             fees := calcFees cfg b.close p.size }] } ∧
    processBar cfg strat hist b st =
      equityStep (signalStep cfg strat hist b.close b.time (exitStep cfg st b.close b.time)) := by
  have hx2 : ({ p with unrealized_pnl := some ((b.close - p.entry_price) * p.size) }
      : Position).shouldExit b.close = true := hx
  refine ⟨?_, rfl⟩
  simp only [exitStep, hp, Position.update, hx2, if_true, closePosition]

/-- C2, witness: the spec scenario — stop-loss 99, the bar closes at 99 — the
position is closed at 99, with trade pnl −1, before any signal of that bar. -/
theorem c2_exit_precedes_signals_witness :
    ((posSL99.update (mkBar 2 99).close).shouldExit (mkBar 2 99).close = true) ∧
    (exitStep cfg0 stSL99 (mkBar 2 99).close (mkBar 2 99).time =
      { stSL99 with
        position := none
        trades := stSL99.trades ++
          [{ entry_time := posSL99.entry_time
             exit_time := (mkBar 2 99).time
             entry_price := posSL99.entry_price
             exit_price := (mkBar 2 99).close
             size := posSL99.size
             pnl := ((mkBar 2 99).close - posSL99.entry_price) * posSL99.size
             return_pct := ((mkBar 2 99).close / posSL99.entry_price - 1) * 100
             fees := calcFees cfg0 (mkBar 2 99).close posSL99.size }] } ∧
     processBar cfg0 noSigStrat [mkBar 2 99] (mkBar 2 99) stSL99 =
       equityStep (signalStep cfg0 noSigStrat [mkBar 2 99] (mkBar 2 99).close (mkBar 2 99).time
         (exitStep cfg0 stSL99 (mkBar 2 99).close (mkBar 2 99).time))) ∧
    (exitStep cfg0 stSL99 99 2).trades =
      [{ entry_time := 0, exit_time := 2, entry_price := 100, exit_price := 99,
         size := 1, pnl := -1, return_pct := -1, fees := 0 }] :=
  ⟨by norm_num [Position.update, Position.shouldExit, truthy, posSL99, mkBar],
   c2_exit_precedes_signals cfg0 noSigStrat [mkBar 2 99] (mkBar 2 99) stSL99 posSL99 rfl
     (by norm_num [Position.update, Position.shouldExit, truthy, posSL99, mkBar]),
   by norm_num [exitStep, closePosition, calcFees, Position.update, Position.shouldExit,
     truthy, stSL99, posSL99, cfg0]⟩

/-! ## C3 -/

/-- C3, counterexample: on a bar where the strategy opens and closes a one-unit
long at close 100 with 1% commission, the code appends the previous equity
value 10000 (realized P&L and fees never reach the equity series), while the
spec's "realized capital + unrealized P&L" is 9999 — the round trip paid 1 in
fees. -/
theorem c3_equity_ignores_realized :
    (processBar cfgFee buyCloseStrat [mkBar 0 100] (mkBar 0 100) (initState cfgFee)).1.equity =
      [10000, 10000] ∧
    specEquity cfgFee
      (processBar cfgFee buyCloseStrat [mkBar 0 100] (mkBar 0 100) (initState cfgFee)).1 100 =
      9999 ∧
    (10000 : ℚ) ≠ 9999 := by
  refine ⟨?_, ?_, by norm_num⟩ <;>
    norm_num [processBar, equityStep, signalStep, exitStep, processSignals, processSignal,
      closePosition, openLong, openShort, calcEquity, calcFees, Position.update,
      Position.shouldExit, truthy, initState, mkBar, cfgFee, buyCloseStrat, specEquity]

/-- C3, amended: the equity value appended for a bar equals the PREVIOUS
appended equity value plus the unrealized P&L of the position open after the
bar's signals (zero when flat); realized P&L and fees of closed trades never
enter the equity series.  (When the open position was created on this same
bar, its `unrealized_pnl` is unassigned and the bar raises instead — C1.) -/
theorem c3_equity_is_previous_plus_unrealized (cfg : EngineConfig) (strat : Strategy)
    (hist : List Bar) (b : Bar) (st : ProcState) (v : ℚ)
    (h : calcEquity (signalStep cfg strat hist b.close b.time (exitStep cfg st b.close b.time)) =
      .ok v) :
    (processBar cfg strat hist b st).1.equity =
      (signalStep cfg strat hist b.close b.time (exitStep cfg st b.close b.time)).equity ++ [v] ∧
    v = (signalStep cfg strat hist b.close b.time (exitStep cfg st b.close b.time)).equity.getLastD 0 +
      (match (signalStep cfg strat hist b.close b.time (exitStep cfg st b.close b.time)).position with
       | some p => p.unrealized_pnl.getD 0
       | none => 0) := by
  constructor
  · simp only [processBar, equityStep, h]
  · rcases hpos : (signalStep cfg strat hist b.close b.time
        (exitStep cfg st b.close b.time)).position with _ | p
    · simp only [calcEquity, hpos, Except.ok.injEq] at h
      simp [hpos, ← h]
    · rcases hu : p.unrealized_pnl with _ | u
      · simp only [calcEquity, hpos, hu] at h
        exact absurd h (by simp)
      · simp only [calcEquity, hpos, hu, Except.ok.injEq] at h
        simp [hpos, hu, ← h]

/-- C3, witness: a flat no-signal bar appends the previous value plus zero. -/
theorem c3_equity_is_previous_plus_unrealized_witness :
    (calcEquity (signalStep cfg0 noSigStrat [mkBar 0 100] (mkBar 0 100).close (mkBar 0 100).time
        (exitStep cfg0 (initState cfg0) (mkBar 0 100).close (mkBar 0 100).time)) = .ok 10000) ∧
    ((processBar cfg0 noSigStrat [mkBar 0 100] (mkBar 0 100) (initState cfg0)).1.equity =
      (signalStep cfg0 noSigStrat [mkBar 0 100] (mkBar 0 100).close (mkBar 0 100).time
        (exitStep cfg0 (initState cfg0) (mkBar 0 100).close (mkBar 0 100).time)).equity ++ [10000] ∧
     (10000 : ℚ) =
      (signalStep cfg0 noSigStrat [mkBar 0 100] (mkBar 0 100).close (mkBar 0 100).time
        (exitStep cfg0 (initState cfg0) (mkBar 0 100).close (mkBar 0 100).time)).equity.getLastD 0 +
      (match (signalStep cfg0 noSigStrat [mkBar 0 100] (mkBar 0 100).close (mkBar 0 100).time
          (exitStep cfg0 (initState cfg0) (mkBar 0 100).close (mkBar 0 100).time)).position with
       | some p => p.unrealized_pnl.getD 0
       | none => 0)) :=
  ⟨by norm_num [calcEquity, signalStep, exitStep, processSignals, processSignal, initState,
      mkBar, cfg0, noSigStrat],
   c3_equity_is_previous_plus_unrealized cfg0 noSigStrat [mkBar 0 100] (mkBar 0 100)
     (initState cfg0) 10000
     (by norm_num [calcEquity, signalStep, exitStep, processSignals, processSignal, initState,
        mkBar, cfg0, noSigStrat])⟩

/-! ## C4 -/

/-- Closing a position does not touch the equity list. -/
lemma closePosition_equity (cfg : EngineConfig) (st : ProcState) (price : ℚ) (time : ℕ) :
    (closePosition cfg st price time).equity = st.equity := by
  rcases hp : st.position with _ | p <;> simp [closePosition, hp]

/-- Signal processing (open/close/overwrite) does not touch the equity list. -/
lemma processSignal_equity (cfg : EngineConfig) (close : ℚ) (time : ℕ)
    (st : ProcState) (s : Signal) :
    (processSignal cfg close time st s).equity = st.equity := by
  rcases ha : s.action <;> simp only [processSignal, ha]
  · split <;> simp [openLong, closePosition_equity]
  · split <;> simp [openShort, closePosition_equity]
  · split <;> simp [closePosition_equity]

/-- A whole signal list does not touch the equity list. -/
lemma processSignals_equity (cfg : EngineConfig) (close : ℚ) (time : ℕ)
    (sigs : List Signal) :
    ∀ st, (processSignals cfg sigs close time st).equity = st.equity := by
  induction sigs with
  | nil => intro st; rfl
  | cons s rest ih =>
      intro st
      simp only [processSignals, List.foldl_cons] at ih ⊢
      rw [ih, processSignal_equity]

/-- The stop/target exit phase does not touch the equity list. -/
lemma exitStep_equity (cfg : EngineConfig) (st : ProcState) (close : ℚ) (time : ℕ) :
    (exitStep cfg st close time).equity = st.equity := by
  rcases hp : st.position with _ | p <;> simp only [exitStep, hp]
  split <;> simp [closePosition_equity]

/-- The strategy phase does not touch the equity list. -/
lemma signalStep_equity (cfg : EngineConfig) (strat : Strategy) (hist : List Bar)
    (close : ℚ) (time : ℕ) (st : ProcState) :
    (signalStep cfg strat hist close time st).equity = st.equity := by
  rcases hs : strat hist with _ | sigs <;> simp [signalStep, hs, processSignals_equity]

/-- A bar that completes without raising appends exactly one equity value. -/
lemma processBar_ok_equity_length (cfg : EngineConfig) (strat : Strategy) (hist : List Bar)
    (b : Bar) (st st1 : ProcState) (h : processBar cfg strat hist b st = (st1, none)) :
    st1.equity.length = st.equity.length + 1 := by
  have hpre : (signalStep cfg strat hist b.close b.time
      (exitStep cfg st b.close b.time)).equity = st.equity := by
    rw [signalStep_equity, exitStep_equity]
  simp only [processBar, equityStep] at h
  rcases hc : calcEquity (signalStep cfg strat hist b.close b.time
      (exitStep cfg st b.close b.time)) with err | e
  · rw [hc] at h
    simp at h
  · rw [hc] at h
    simp only [Prod.mk.injEq] at h
    rw [← h.1]
    simp [hpre]

/-- The bar loop, when it completes without raising, has appended exactly one
equity value per processed bar. -/
lemma runFrom_ok_equity_length (cfg : EngineConfig) (strat : Strategy) (rest : List Bar) :
    ∀ (processed : List Bar) (st st1 : ProcState),
      runFrom cfg strat processed rest st = (st1, none) →
      st1.equity.length = st.equity.length + rest.length := by
  induction rest with
  | nil =>
      intro processed st st1 h
      simp only [runFrom, Prod.mk.injEq] at h
      rw [← h.1]
      simp
  | cons b rest ih =>
      intro processed st st1 h
      simp only [runFrom] at h
      rcases hp : processBar cfg strat (processed ++ [b]) b st with ⟨st2, err⟩
      rcases err with _ | e
      · rw [hp] at h
        have h1 := ih (processed ++ [b]) st2 st1 h
        have h2 := processBar_ok_equity_length cfg strat (processed ++ [b]) b st st2 hp
        simp only [List.length_cons]
        omega
      · rw [hp] at h
        simp at h

/-- C4: confirmed.  For every config, strategy and bar series, `run` never
returns a result.  Moreover whenever the bar loop itself completes without an
exception, the failure is precisely the `pd.Series` length mismatch between
the `n+1`-element equity list (initial capital plus one append per bar) and
the `n` bar timestamps. -/
theorem c4_run_always_raises (cfg : EngineConfig) (strat : Strategy) (bars : List Bar) :
    (∃ e, runAsset cfg strat bars = .error e) ∧
    (∀ st, runFrom cfg strat [] bars (initState cfg) = (st, none) →
      runAsset cfg strat bars = .error (.lengthMismatch (bars.length + 1) bars.length)) := by
  have key : ∀ st, runFrom cfg strat [] bars (initState cfg) = (st, none) →
      runAsset cfg strat bars = .error (.lengthMismatch (bars.length + 1) bars.length) := by
    intro st h
    have hlen : st.equity.length = bars.length + 1 := by
      have hl := runFrom_ok_equity_length cfg strat bars [] (initState cfg) st h
      simpa [initState, Nat.add_comm] using hl
    have hCeq : (if st.position.isSome then
        match bars.getLast? with
        | some lb => closePosition cfg st lb.close lb.time
        | none => st
      else st).equity = st.equity := by
      split
      · rcases bars.getLast? with _ | lb <;> simp [closePosition_equity]
      · rfl
    simp only [runAsset, h, hCeq, hlen]
    rw [if_neg (by omega)]
  refine ⟨?_, key⟩
  rcases hr : runFrom cfg strat [] bars (initState cfg) with ⟨st, err⟩
  rcases err with _ | e
  · exact ⟨_, key st hr⟩
  · refine ⟨e, ?_⟩
    simp only [runAsset, hr]

/-- C4, witness: a 1-bar no-signal run fails with the 2-vs-1 length mismatch. -/
theorem c4_run_always_raises_witness :
    runAsset cfg0 noSigStrat [mkBar 0 100] = .error (.lengthMismatch 2 1) :=
  (c4_run_always_raises cfg0 noSigStrat [mkBar 0 100]).2
    { position := none, equity := [10000, 10000], trades := [] }
    (by norm_num [runFrom, processBar, equityStep, signalStep, exitStep, processSignals,
      processSignal, calcEquity, initState, mkBar, cfg0, noSigStrat])

/-! ## C5 -/

/-- Evaluating a keyed map built over a duplicate-free key list at one of its
keys returns that key's value. -/
lemma lookupVal_keyed_map (f : ℕ → ℚ) :
    ∀ (ts : List ℕ), ts.Nodup → ∀ t ∈ ts,
      lookupVal t (ts.map (fun u => (u, f u))) = some (f t) := by
  intro ts
  induction ts with
  | nil => intro _ t ht; cases ht
  | cons u rest ih =>
      intro hnd t ht
      by_cases he : u = t
      · subst he
        simp [lookupVal]
      · have hne : (u == t) = false := by simpa using he
        have ht2 : t ∈ rest := by
          rcases List.mem_cons.mp ht with h1 | h1
          · exact absurd h1.symm he
          · exact h1
        have hstep : lookupVal t ((u :: rest).map (fun v => (v, f v))) =
            lookupVal t (rest.map (fun v => (v, f v))) := by
          simp [lookupVal, List.find?_cons, hne]
        rw [hstep]
        exact ih (List.Nodup.of_cons hnd) t ht2

/-- C5, amended: the combined equity value at each joined timestamp is the sum
over assets of that asset's value at the timestamp when present and `0` when
absent (a missing entry becomes NaN in the outer join and `.sum(axis=1)`
skips it) — NOT the asset's starting capital carried forward. -/
theorem c5_outer_join_sums_present_values (rs : List (List (ℕ × ℚ))) (t : ℕ)
    (h : t ∈ joinTimes rs) :
    lookupVal t (combineEquity rs) =
      some ((rs.map (fun r => (lookupVal t r).getD 0)).sum) := by
  have hnd : (joinTimes rs).Nodup := List.nodup_dedup _
  exact lookupVal_keyed_map _ (joinTimes rs) hnd t h

/-- C5, witness: at time 1 the combined curve holds 110 + 0 = 110 — the
shorter asset contributes zero. -/
theorem c5_outer_join_sums_present_values_witness :
    ((1 : ℕ) ∈ joinTimes rs0) ∧
    lookupVal 1 (combineEquity rs0) =
      some ((rs0.map (fun r => (lookupVal 1 r).getD 0)).sum) ∧
    (rs0.map (fun r => (lookupVal 1 r).getD 0)).sum = 110 :=
  ⟨by decide, c5_outer_join_sums_present_values rs0 1 (by decide),
   by norm_num [rs0, lookupVal]⟩

/-- C5, counterexample: the claim's carry-forward semantics gives 160 at time
1 (110 plus asset 2's starting capital 50), but the code computes 110 — the
missing value contributes zero, exactly what the spec says never happens. -/
theorem c5_missing_value_contributes_zero :
    lookupVal 1 (combineEquity rs0) = some 110 ∧
    lookupVal 1 (specCombineEquity rs0) = some 160 ∧
    (110 : ℚ) ≠ 160 := by
  refine ⟨?_, ?_, by norm_num⟩ <;>
    norm_num [combineEquity, specCombineEquity, joinTimes, lookupVal, rs0, List.dedup]

/-! ## C6 -/

/-- C6, counterexample: a buy signal carrying `close_existing=False` while a
short is open overwrites `self.position` with the new long and emits NO
trade — the prior exposure is dropped silently, contradicting "for every
value of the signal's fields ... a Trade closing the prior exposure is
emitted". -/
theorem c6_replace_without_trade :
    stShort.position = some shortPos ∧
    (processSignal cfg0 101 1 stShort sigBuyKeep).trades = [] ∧
    (processSignal cfg0 101 1 stShort sigBuyKeep).position =
      some { size := 1, entry_price := 101, entry_time := 1 } := by
  refine ⟨rfl, ?_, ?_⟩ <;>
    norm_num [processSignal, openLong, closePosition, stShort, shortPos, sigBuyKeep, cfg0]

/-- C6, amended: a buy or sell signal whose `close_existing` field is true
(the default) while a position is open first emits the Trade closing the
prior exposure at the bar's close and only then installs the new position;
with `close_existing=False` the prior position is overwritten with no Trade
(the counterexample). -/
theorem c6_close_then_open (cfg : EngineConfig) (close : ℚ) (time : ℕ)
    (st : ProcState) (s : Signal) (p : Position)
    (hp : st.position = some p) (hc : s.close_existing = true)
    (ha : s.action = .buy ∨ s.action = .sell) :
    processSignal cfg close time st s =
      { st with
        trades := st.trades ++
          [{ entry_time := p.entry_time
             exit_time := time
             entry_price := p.entry_price
             exit_price := close
             size := p.size
             pnl := (close - p.entry_price) * p.size
             return_pct := (close / p.entry_price - 1) * 100
             fees := calcFees cfg close p.size }]
        position := some
          { size := if s.action = .buy then s.size else -s.size
            entry_price := close
            entry_time := time
            stop_loss := s.stop_loss
            take_profit := s.take_profit
            unrealized_pnl := none } } := by
  rcases ha with ha | ha <;>
    simp [processSignal, ha, hp, hc, closePosition, openLong, openShort]

/-- C6, witness: a buy with default `close_existing` over the open short first
records the closing trade of the short at 101 and then opens the new long. -/
theorem c6_close_then_open_witness :
    (stShort.position = some shortPos ∧ sigBuy.close_existing = true ∧
      (sigBuy.action = .buy ∨ sigBuy.action = .sell)) ∧
    processSignal cfg0 101 1 stShort sigBuy =
      { stShort with
        trades := stShort.trades ++
          [{ entry_time := shortPos.entry_time
             exit_time := 1
             entry_price := shortPos.entry_price
             exit_price := 101
             size := shortPos.size
             pnl := ((101 : ℚ) - shortPos.entry_price) * shortPos.size
             return_pct := ((101 : ℚ) / shortPos.entry_price - 1) * 100
             fees := calcFees cfg0 101 shortPos.size }]
        position := some
          { size := if sigBuy.action = .buy then sigBuy.size else -sigBuy.size
            entry_price := 101
            entry_time := 1
            stop_loss := sigBuy.stop_loss
            take_profit := sigBuy.take_profit
            unrealized_pnl := none } } :=
  ⟨⟨rfl, rfl, Or.inl rfl⟩,
   c6_close_then_open cfg0 101 1 stShort sigBuy shortPos rfl rfl (Or.inl rfl)⟩

/-! ## C7 -/

/-- Length of the Cartesian product: the product of the dimension sizes. -/
lemma cartProd_length (L : List (List ℚ)) :
    (cartProd L).length = (L.map List.length).prod := by
  induction L with
  | nil => rfl
  | cons vs rest ih =>
      simp only [cartProd, List.length_flatMap, List.map_cons, List.prod_cons]
      have hmap : List.map (List.length ∘ fun v => List.map (fun c => v :: c) (cartProd rest)) vs
          = List.replicate vs.length (cartProd rest).length := by
        simp [Function.comp_def]
      rw [hmap, List.sum_replicate, smul_eq_mul, ih]

/-- Every member of the Cartesian product has one entry per dimension. -/
lemma cartProd_mem_length (L : List (List ℚ)) :
    ∀ c ∈ cartProd L, c.length = L.length := by
  induction L with
  | nil =>
      intro c hc
      simp only [cartProd, List.mem_singleton] at hc
      subst hc
      rfl
  | cons vs rest ih =>
      intro c hc
      simp only [cartProd, List.mem_flatMap, List.mem_map] at hc
      obtain ⟨v, _, c2, hc2, rfl⟩ := hc
      simp [ih c2 hc2]

/-- Distinct values in every dimension give pairwise-distinct combinations. -/
lemma cartProd_nodup (L : List (List ℚ)) (h : ∀ vs ∈ L, vs.Nodup) :
    (cartProd L).Nodup := by
  induction L with
  | nil => simp [cartProd]
  | cons vs rest ih =>
      simp only [cartProd]
      rw [List.nodup_flatMap]
      constructor
      · intro v _
        exact (ih fun l hl => h l (List.mem_cons_of_mem _ hl)).map
          (fun c1 c2 hc => (List.cons.inj hc).2)
      · have hvs : vs.Nodup := h vs (List.mem_cons_self vs rest)
        refine hvs.imp ?_
        intro a b hab x hxa hxb
        simp only [List.mem_map] at hxa hxb
        obtain ⟨c1, _, rfl⟩ := hxa
        obtain ⟨c2, _, heq⟩ := hxb
        exact hab (List.cons.inj heq.symm).1

/-- Zipping a fixed key list with two value lists of full length is injective. -/
lemma zip_right_inj (keys : List String) :
    ∀ (c1 c2 : List ℚ), c1.length = keys.length → c2.length = keys.length →
      keys.zip c1 = keys.zip c2 → c1 = c2 := by
  induction keys with
  | nil =>
      intro c1 c2 h1 h2 _
      rw [List.length_eq_zero.mp h1, List.length_eq_zero.mp h2]
  | cons k krest ih =>
      intro c1 c2 h1 h2 heq
      cases c1 with
      | nil => simp at h1
      | cons a arest =>
          cases c2 with
          | nil => simp at h2
          | cons b brest =>
              simp only [List.zip_cons_cons] at heq
              obtain ⟨hpair, htail⟩ := List.cons.inj heq
              obtain rfl : a = b := (Prod.mk.injEq _ _ _ _).mp hpair |>.2
              rw [ih arest brest (by simpa using h1) (by simpa using h2) htail]

/-- With no constraints the grid filter keeps everything. -/
lemma filterCombos_nil (keys : List String) :
    ∀ combos : List (List ℚ), filterCombos [] keys combos = some combos := by
  intro combos
  induction combos with
  | nil => rfl
  | cons c rest ih => simp [filterCombos, checkAll, ih]

/-- The selection sample has exactly the requested size. -/
lemma sampleK_length (rng : ℕ → ℕ) :
    ∀ (k : ℕ) (pool : List (List ℚ)) (step : ℕ), k ≤ pool.length →
      (sampleK rng step pool k).length = k := by
  intro k
  induction k with
  | zero => intro pool step _; cases pool <;> rfl
  | succ k ih =>
      intro pool step h
      cases pool with
      | nil => simp at h
      | cons c rest =>
          have hj : rng step % (c :: rest).length < (c :: rest).length :=
            Nat.mod_lt _ (by simp)
          simp only [sampleK]
          rw [List.length_cons, ih ((c :: rest).eraseIdx (rng step % (c :: rest).length))
            (step + 1) ?_]
          rw [List.length_eraseIdx, if_pos hj]
          simp only [List.length_cons] at h ⊢
          omega

/-- Every sampled element comes from the pool. -/
lemma sampleK_subset (rng : ℕ → ℕ) :
    ∀ (k : ℕ) (pool : List (List ℚ)) (step : ℕ) (x : List ℚ),
      x ∈ sampleK rng step pool k → x ∈ pool := by
  intro k
  induction k with
  | zero => intro pool step x hx; cases pool <;> simp [sampleK] at hx
  | succ k ih =>
      intro pool step x hx
      cases pool with
      | nil => simp [sampleK] at hx
      | cons c rest =>
          simp only [sampleK] at hx
          rcases List.mem_cons.mp hx with h1 | h1
          · subst h1
            have hj : rng step % (c :: rest).length < (c :: rest).length :=
              Nat.mod_lt _ (by simp)
            rw [List.getD_eq_getElem _ _ hj]
            exact List.getElem_mem hj
          · exact List.mem_of_mem_eraseIdx (ih _ _ _ h1)

/-- C7, amended: grid mode with no constraints and no cap enumerates exactly
the Cartesian product of the value lists in the input's parameter order
(∏ni sets, pairwise distinct when each dimension's values are distinct); when
the enumeration exceeds a nonzero `max_evals`, a uniform subsample WITHOUT
replacement of exactly `max_evals` sets drawn from the product is returned —
but the sample is driven by the never-seeded global random state `rng`, not
deterministic in the inputs (see the counterexample). -/
theorem c7_grid_product_and_cap (space : List (String × List ℚ))
    (rng : ℕ → ℕ) (fuel : ℕ) (me : ℕ)
    (hnd : ∀ vs ∈ space.map Prod.snd, vs.Nodup) :
    generateParamCombos space "grid" none [] rng fuel =
      some (.ok ((cartProd (space.map Prod.snd)).map
        (fun c => (space.map Prod.fst).zip c))) ∧
    (cartProd (space.map Prod.snd)).length =
      ((space.map Prod.snd).map List.length).prod ∧
    ((cartProd (space.map Prod.snd)).map (fun c => (space.map Prod.fst).zip c)).Nodup ∧
    (me ≠ 0 → me < (cartProd (space.map Prod.snd)).length →
      ∃ l, generateParamCombos space "grid" (some me) [] rng fuel = some (.ok l) ∧
        l.length = me ∧
        ∀ x ∈ l, x ∈ (cartProd (space.map Prod.snd)).map
          (fun c => (space.map Prod.fst).zip c)) := by
  have hf := filterCombos_nil (space.map Prod.fst) (cartProd (space.map Prod.snd))
  have hnodup : ((cartProd (space.map Prod.snd)).map
      (fun c => (space.map Prod.fst).zip c)).Nodup := by
    refine List.Nodup.map_on ?_ (cartProd_nodup _ hnd)
    intro c1 h1 c2 h2 heq
    exact zip_right_inj (space.map Prod.fst) c1 c2
      (by rw [cartProd_mem_length _ c1 h1]; simp) (by rw [cartProd_mem_length _ c2 h2]; simp) heq
  refine ⟨?_, cartProd_length _, hnodup, ?_⟩
  · simp [generateParamCombos, hf, pyTruthyNat]
  · intro hme hlt
    refine ⟨(sampleK rng 0 (cartProd (space.map Prod.snd)) me).map
      (fun c => (space.map Prod.fst).zip c), ?_, ?_, ?_⟩
    · simp [generateParamCombos, hf, pyTruthyNat, hme, hlt]
    · rw [List.length_map, sampleK_length rng me _ 0 (le_of_lt hlt)]
    · intro x hx
      simp only [List.mem_map] at hx ⊢
      obtain ⟨c, hc, rfl⟩ := hx
      exact ⟨c, sampleK_subset rng me _ 0 c hc, rfl⟩

/-- C7, witness: a 2×1 grid capped at 1 — the full product has ∏ni = 2 sets
and the capped call returns exactly one of them. -/
theorem c7_grid_product_and_cap_witness :
    (cartProd ([("p", [1, 2]), ("q", [3])].map Prod.snd)).length =
      (([("p", [1, 2]), ("q", [3])].map Prod.snd).map List.length).prod ∧
    ∃ l, generateParamCombos [("p", [1, 2]), ("q", [3])] "grid" (some 1) [] (fun _ => 0) 0 =
        some (.ok l) ∧ l.length = 1 ∧
        ∀ x ∈ l, x ∈ (cartProd ([("p", [1, 2]), ("q", [3])].map Prod.snd)).map
          (fun c => ([("p", [1, 2]), ("q", [3])].map Prod.fst).zip c) :=
  ⟨(c7_grid_product_and_cap [("p", [1, 2]), ("q", [3])] (fun _ => 0) 0 1 (by decide)).2.1,
   (c7_grid_product_and_cap [("p", [1, 2]), ("q", [3])] (fun _ => 0) 0 1 (by decide)).2.2.2
     (by decide) (by decide)⟩

/-- C7, counterexample: the capped subsample is NOT seeded or deterministic.
Two invocations with identical parameter space, method, cap and constraints
but different hidden global-RNG states return different lists, refuting "two
invocations with identical inputs return identical lists". -/
theorem c7_capped_sample_not_deterministic :
    genOk (generateParamCombos [("p", [1, 2])] "grid" (some 1) [] (fun _ => 0) 0) =
      some [[("p", 1)]] ∧
    genOk (generateParamCombos [("p", [1, 2])] "grid" (some 1) [] (fun _ => 1) 0) =
      some [[("p", 2)]] ∧
    (some [[("p", (1 : ℚ))]] : Option (List Params)) ≠ some [[("p", 2)]] := by
  refine ⟨?_, ?_, ?_⟩ <;> decide

/-! ## C8 -/

/-- C8, amended: random mode is a rejection loop, not draw-then-filter: it
keeps drawing until `max_evals or 100` constraint-SATISFYING samples have
accumulated.  (1) When every drawable sample fails the constraints the loop
never terminates — no fuel bound ever suffices; (2) when it does return a
list it holds exactly `needed` sets; (3) `_generate_param_combos` in random
mode is exactly this loop started empty. -/
theorem c8_rejection_loop (space : List (String × List ℚ)) (cs : List Constraint)
    (needed : ℕ) (rng : ℕ → ℕ) :
    ((∀ step, checkAll cs (drawCombo space rng step) = some false) →
      ∀ fuel step acc, acc.length < needed →
        randomLoop space cs needed rng fuel step acc = none) ∧
    (∀ fuel step acc l, acc.length ≤ needed →
      randomLoop space cs needed rng fuel step acc = some (.ok l) →
      l.length = needed) ∧
    (∀ me fuel, generateParamCombos space "random" me cs rng fuel =
      randomLoop space cs (pyNeeded me) rng fuel 0 []) := by
  refine ⟨?_, ?_, ?_⟩
  · intro hfail fuel
    induction fuel with
    | zero =>
        intro step acc hlt
        simp [randomLoop, hlt]
    | succ fuel ih =>
        intro step acc hlt
        rw [randomLoop, if_pos hlt, hfail step]
        exact ih (step + space.length) acc hlt
  · intro fuel
    induction fuel with
    | zero =>
        intro step acc l hle h
        rw [randomLoop] at h
        by_cases hlt : acc.length < needed
        · rw [if_pos hlt] at h
          simp at h
        · rw [if_neg hlt] at h
          obtain rfl : acc = l := Except.ok.inj (Option.some.inj h)
          omega
    | succ fuel ih =>
        intro step acc l hle h
        rw [randomLoop] at h
        by_cases hlt : acc.length < needed
        · rw [if_pos hlt] at h
          rcases hchk : checkAll cs (drawCombo space rng step) with _ | b
          · rw [hchk] at h
            simp at h
          · rcases b with _ | _
            · rw [hchk] at h
              exact ih (step + space.length) acc l hle h
            · rw [hchk] at h
              refine ih (step + space.length) (acc ++ [drawCombo space rng step]) l ?_ h
              simp only [List.length_append, List.length_cons, List.length_nil]
              omega
        · rw [if_neg hlt] at h
          obtain rfl : acc = l := Except.ok.inj (Option.some.inj h)
          omega
  · intro me fuel
    rfl

/-- C8, witness: with the unsatisfiable constraint `p < p` the loop returns
`none` for fuel 5 (and, by the theorem, for every fuel); with the satisfiable
`p == 1` it halts with exactly 2 sets after filtering DURING the loop. -/
theorem c8_rejection_loop_witness :
    randomLoop [("p", [1, 2])] [cLtSelf] 2 (fun i => i) 5 0 [] = none ∧
    ([[("p", (1 : ℚ))], [("p", 1)]] : List Params).length = 2 := by
  have hfail : ∀ step,
      checkAll [cLtSelf] (drawCombo [("p", [1, 2])] (fun i => i) step) = some false := by
    intro step
    simp [checkAll, checkConstraint, evalExpr, cmpOp, drawCombo, cLtSelf]
  exact ⟨(c8_rejection_loop [("p", [1, 2])] [cLtSelf] 2 (fun i => i)).1 hfail 5 0 []
      (by decide),
    (c8_rejection_loop [("p", [1, 2])] [cEq1] 2 (fun i => i)).2.1 10 0 []
      [[("p", 1)], [("p", 1)]] (by decide) (by decide)⟩

/-- C8, counterexample: the claim's draw-exactly-N-then-filter semantics and
the code differ observably.  Space `p ∈ [1,2]`, constraint `p == 1`,
`max_evals = 2`, stream drawing indexes 0,1,2,...: the spec's two draws are
`p=1, p=2` and filtering leaves ONE set, while the code keeps drawing until
it has TWO satisfying sets, returning `[p=1, p=1]` — it filters during the
loop, and draws more than `max_evals` samples. -/
theorem c8_code_filters_during_loop :
    genOk (generateParamCombos [("p", [1, 2])] "random" (some 2) [cEq1] (fun i => i) 10) =
      some [[("p", 1)], [("p", 1)]] ∧
    specRandomCombos [("p", [1, 2])] [cEq1] 2 (fun i => i) = some [[("p", 1)]] ∧
    (some [[("p", (1 : ℚ))], [("p", 1)]] : Option (List Params)) ≠ some [[("p", 1)]] := by
  refine ⟨?_, ?_, ?_⟩ <;> decide

/-! ## C9 -/

/-- The fold inside `max(results, ...)` returns its seed or a list element. -/
lemma pyMax_foldl_mem (rest : List (Params × ℚ)) :
    ∀ x : Params × ℚ, rest.foldl (fun b y => if y.2 > b.2 then y else b) x = x ∨
      rest.foldl (fun b y => if y.2 > b.2 then y else b) x ∈ rest := by
  induction rest with
  | nil => intro x; exact Or.inl rfl
  | cons y rest ih =>
      intro x
      simp only [List.foldl_cons]
      rcases ih (if y.2 > x.2 then y else x) with h | h
      · rw [h]
        split
        · exact Or.inr (List.mem_cons_self _ _)
        · exact Or.inl rfl
      · exact Or.inr (List.mem_cons_of_mem _ h)

/-- The fold inside `max(results, ...)` dominates its seed and every element. -/
lemma pyMax_foldl_ge (rest : List (Params × ℚ)) :
    ∀ x : Params × ℚ,
      x.2 ≤ (rest.foldl (fun b y => if y.2 > b.2 then y else b) x).2 ∧
      ∀ v ∈ rest, v.2 ≤ (rest.foldl (fun b y => if y.2 > b.2 then y else b) x).2 := by
  induction rest with
  | nil =>
      intro x
      exact ⟨le_refl _, by intro v hv; cases hv⟩
  | cons y rest ih =>
      intro x
      simp only [List.foldl_cons]
      obtain ⟨h1, h2⟩ := ih (if y.2 > x.2 then y else x)
      constructor
      · refine le_trans ?_ h1
        split
        · next hgt => exact le_of_lt hgt
        · exact le_refl _
      · intro v hv
        rcases List.mem_cons.mp hv with rfl | hv2
        · refine le_trans ?_ h1
          split
          · exact le_refl _
          · next hng => exact le_of_not_lt hng
        · exact h2 v hv2

/-- Every row the collection loop kept is a successful evaluation. -/
lemma collectResults_mem (f : Evaluator) (combos : List Params) :
    ∀ pv ∈ collectResults f combos, f pv.1 = .ok pv.2 := by
  intro pv hpv
  simp only [collectResults, List.mem_filterMap] at hpv
  obtain ⟨p, _, hp⟩ := hpv
  rcases hfp : f p with e | v <;> rw [hfp] at hp
  · simp at hp
  · obtain rfl : (p, v) = pv := Option.some.inj hp
    exact hfp

/-- C9, amended: a parameter set whose backtest raises is skipped — it is
logged and OMITTED from the all-results table (no error-marked row, so
attempted-versus-successful counts are not reconstructable from the table);
it is excluded from best-selection; and when at least one evaluation
succeeds the search completes with a best row that is a successful run
attaining the maximal metric value. -/
theorem c9_failures_omitted_best_among_successes (f : Evaluator) (combos : List Params)
    (r : OptResult) (h : optimizeStrategy f combos = .ok r) :
    r.all_results = collectResults f combos ∧
    (∀ pv ∈ r.all_results, f pv.1 = .ok pv.2) ∧
    (r.best_params, r.best_value) ∈ r.all_results ∧
    ∀ pv ∈ r.all_results, pv.2 ≤ r.best_value := by
  simp only [optimizeStrategy] at h
  rcases hres : collectResults f combos with _ | ⟨x, rest⟩ <;> rw [hres] at h
  · simp [pyMax] at h
  · simp only [pyMax] at h
    obtain rfl : _ = r := Except.ok.inj h
    refine ⟨rfl, ?_, ?_, ?_⟩
    · intro pv hpv
      refine collectResults_mem f combos pv ?_
      rw [hres]
      exact hpv
    · show ((rest.foldl (fun b y => if y.2 > b.2 then y else b) x).1,
        (rest.foldl (fun b y => if y.2 > b.2 then y else b) x).2) ∈ x :: rest
      rw [Prod.mk.eta]
      rcases pyMax_foldl_mem rest x with hm | hm
      · rw [hm]
        exact List.mem_cons_self _ _
      · exact List.mem_cons_of_mem _ hm
    · intro pv hpv
      rcases List.mem_cons.mp hpv with rfl | hv2
      · exact (pyMax_foldl_ge rest pv).1
      · exact (pyMax_foldl_ge rest x).2 pv hv2

/-- C9, witness: with one failing and one succeeding set, the optimizer
returns a result whose table holds only the success, which is also best. -/
theorem c9_failures_omitted_witness :
    (optimizeStrategy fEval [pBad, pGood] =
      .ok { best_params := pGood, best_value := 1,
            all_results := [(pGood, 1)],
            param_importance := [("p", none)] }) ∧
    ([(pGood, (1 : ℚ))] = collectResults fEval [pBad, pGood] ∧
     (∀ pv ∈ [(pGood, (1 : ℚ))], fEval pv.1 = .ok pv.2) ∧
     (pGood, (1 : ℚ)) ∈ [(pGood, (1 : ℚ))] ∧
     ∀ pv ∈ [(pGood, (1 : ℚ))], pv.2 ≤ (1 : ℚ)) := by
  have hE1 : fEval pBad = .error () := by simp [fEval]
  have hE2 : fEval pGood = .ok 1 := by norm_num [fEval, pBad, pGood]
  have hcol : collectResults fEval [pBad, pGood] = [(pGood, 1)] := by
    simp [collectResults, hE1, hE2]
  have hOpt : optimizeStrategy fEval [pBad, pGood] =
      .ok { best_params := pGood, best_value := 1,
            all_results := [(pGood, 1)],
            param_importance := [("p", none)] } := by
    rw [optimizeStrategy, hcol]
    norm_num [pyMax, paramImportance, rawImportance, corrOpt, sumOpt, lookupQ, pGood]
  exact ⟨hOpt, c9_failures_omitted_best_among_successes fEval [pBad, pGood] _ hOpt⟩

/-- C9, counterexample: the failing set `pBad` produces NO row at all — the
code's table has a single row while the spec's error-marked table has two,
so failed evaluations are omitted silently rather than marked. -/
theorem c9_no_error_marker_in_table :
    collectResults fEval [pBad, pGood] = [(pGood, 1)] ∧
    (specAllResults fEval [pBad, pGood]).map Prod.fst = [pBad, pGood] ∧
    pBad ∉ (collectResults fEval [pBad, pGood]).map Prod.fst ∧
    pBad ∈ (specAllResults fEval [pBad, pGood]).map Prod.fst := by
  refine ⟨?_, ?_, ?_, ?_⟩ <;> decide

/-! ## C10 -/

/-- Exact square root of 1. -/
lemma ratSqrt_one : ratSqrt 1 = 1 := by
  rw [ratSqrt]
  norm_num [Nat.sqrt_one]

/-- Scaling every entry of an all-defined NaN-propagating sum scales the sum. -/
lemma sumOpt_map_scale (t : ℚ) :
    ∀ (l : List (Option ℚ)) (s : ℚ), sumOpt l = some s →
      sumOpt (l.map (fun v => v.map (fun x => x / t * 100))) = some (s / t * 100) := by
  intro l
  induction l with
  | nil =>
      intro s hs
      obtain rfl : (0 : ℚ) = s := Option.some.inj hs
      simp [sumOpt]
  | cons v rest ih =>
      intro s hs
      cases v with
      | none => simp [sumOpt] at hs
      | some a =>
          rw [sumOpt] at hs
          rcases hr : sumOpt rest with _ | b
          · rw [hr] at hs
            simp at hs
          · rw [hr] at hs
            obtain rfl : a + b = s := Option.some.inj hs
            simp only [List.map_cons, Option.map_some']
            rw [sumOpt, ih b hr]
            show some (a / t * 100 + b / t * 100) = some ((a + b) / t * 100)
            rw [show a / t * 100 + b / t * 100 = (a + b) / t * 100 from by ring]

/-- C10, amended: whenever every per-parameter absolute Pearson correlation is
defined and their total is positive, the normalized importance values sum to
exactly 100; otherwise (a constant parameter column, a single run, or a NaN /
zero total) the map is returned unnormalized and does not sum to 100 — see
the counterexample. -/
theorem c10_importance_sums_to_100 (results : List (Params × ℚ)) (t : ℚ)
    (h1 : sumOpt ((rawImportance results).map (fun e => e.2)) = some t)
    (h2 : 0 < t) :
    sumOpt ((paramImportance results).map (fun e => e.2)) = some 100 := by
  simp only [paramImportance, h1]
  rw [if_pos h2]
  have hm : ((rawImportance results).map
      (fun e => (e.1, e.2.map (fun v => v / t * 100)))).map (fun e => e.2) =
      ((rawImportance results).map (fun e => e.2)).map
        (fun v => v.map (fun x => x / t * 100)) := by
    simp [List.map_map, Function.comp_def]
  rw [hm, sumOpt_map_scale t _ t h1, div_self (ne_of_gt h2), one_mul]

/-- C10, witness: on `resW` the raw importance total is 1 > 0 and the
normalized importance values sum to exactly 100. -/
theorem c10_importance_sums_to_100_witness :
    sumOpt ((rawImportance resW).map (fun e => e.2)) = some 1 ∧
    (0 : ℚ) < 1 ∧
    sumOpt ((paramImportance resW).map (fun e => e.2)) = some 100 := by
  have h1 : sumOpt ((rawImportance resW).map (fun e => e.2)) = some 1 := by
    norm_num [rawImportance, corrOpt, lookupQ, resW, sumOpt, ratSqrt_one]
  exact ⟨h1, by norm_num, c10_importance_sums_to_100 resW 1 h1 (by norm_num)⟩

/-- C10, counterexample: with a constant parameter column the Pearson
correlation is NaN, `abs(NaN)` is NaN, the total is NaN, `total > 0` is
false, and the map is returned unnormalized with a NaN entry — its sum is
NaN, not 100.  This is a non-empty collection of successful runs on which the
claim fails. -/
theorem c10_nan_importance_not_100 :
    rawImportance resConst = [("p", none)] ∧
    paramImportance resConst = [("p", none)] ∧
    sumOpt ((paramImportance resConst).map (fun e => e.2)) = none ∧
    (none : Option ℚ) ≠ some 100 := by
  have himp : rawImportance resConst = [("p", none)] := by
    norm_num [rawImportance, corrOpt, lookupQ, resConst]
  have hpi : paramImportance resConst = [("p", none)] := by
    rw [paramImportance, himp]
    simp [sumOpt]
  refine ⟨himp, hpi, ?_, by simp⟩
  rw [hpi]
  simp [sumOpt]
